import Mathlib

/-!
Shallow embedding of Redex's interprocedural constant-propagation
whole-program state (ConstantPropagationWholeProgramState.cpp) and proofs
about it.  Pure data is modelled directly; the intraprocedural fixpoint
solver is treated as a black box supplying the abstract environment at
each instruction, exactly as the collector consumes it.
-/

namespace Redex

/-- Abstract constant value, as consumed by the whole-program state: a flat
lattice over integers with `bot` (never observed), `const n` and `top`
(unknown). -/
inductive ConstantValue : Type where
  | bot : ConstantValue
  | const : Int → ConstantValue
  | top : ConstantValue
deriving DecidableEq, Repr

namespace ConstantValue

/-- Test for the top element, mirroring `AbstractDomain::is_top`. -/
def is_top : ConstantValue → Bool
  | top => true
  | _ => false

/-- Lattice join (`join_with` in the source): least upper bound of the flat
lattice. -/
def join : ConstantValue → ConstantValue → ConstantValue
  | bot, v => v
  | top, _ => top
  | const m, bot => const m
  | const _, top => top
  | const m, const n => if m = n then const m else top

end ConstantValue

/-- A Dex field as the analysis sees it: an identity plus the attributes
consulted by the eligibility rules. -/
structure DexField : Type where
  id : Nat
  cls : Nat
  isStatic : Bool
  isExternal : Bool
  isVolatile : Bool
  canDelete : Bool
  isRoot : Bool
  isFinal : Bool
deriving DecidableEq, Repr

/-- A Dex method as the analysis sees it. -/
structure DexMethod : Type where
  id : Nat
  cls : Nat
  isVirtual : Bool
  hasCode : Bool
  isRoot : Bool
  isClinit : Bool
deriving DecidableEq, Repr

/-- The IR opcodes the collector and analyzers dispatch on (each family of
put/return/invoke opcodes collapsed to one representative). -/
inductive IROpcode : Type where
  | sput
  | iput
  | returnVoid
  | returnValue
  | invokeDirect
  | invokeStatic
  | invokeVirtual
  | invokeSuper
  | invokeInterface
  | other
deriving DecidableEq, Repr

/-- Mirror of `opcode::is_an_sput`. -/
def is_an_sput : IROpcode → Bool
  | .sput => true
  | _ => false

/-- Mirror of `opcode::is_an_iput`. -/
def is_an_iput : IROpcode → Bool
  | .iput => true
  | _ => false

/-- Mirror of `opcode::is_a_return`. -/
def is_a_return : IROpcode → Bool
  | .returnVoid => true
  | .returnValue => true
  | _ => false

/-- Registers, with the distinguished `RESULT_REGISTER`. -/
inductive Reg : Type where
  | reg : Nat → Reg
  | result : Reg
deriving DecidableEq, Repr

/-- An IR instruction: opcode, first source register, and the field/method
reference operands (resolved through a `Resolver`). -/
structure IRInstruction : Type where
  id : Nat
  op : IROpcode
  src0 : Reg
  fieldRef : Nat
  methodRef : Nat
deriving DecidableEq, Repr

/-- The distinguished result pseudo-register. -/
def RESULT_REGISTER : Reg := Reg.result

/-- Pointwise update of a finite map modelled as a function. -/
def upd {α β : Type} [DecidableEq α] (m : α → β) (a : α) (b : β) : α → β :=
  fun x => if x = a then b else m x

/-- Insertion into a set modelled as a duplicate-free-enough list
(`emplace` on an unordered set). -/
def insertElem {α : Type} [DecidableEq α] (a : α) (s : List α) : List α :=
  if a ∈ s then s else a :: s

/-- Abstract register environment (`ConstantEnvironment`), defaulting is
irrelevant for the embedded operations. -/
abbrev ConstantEnvironment := Reg → ConstantValue

/-- Abstract field environment (`FieldEnvironment`). -/
abbrev FieldEnvironment := DexField → ConstantValue

/-- Field partition (`ConstantFieldPartition`); a missing entry means
`bot`, so the base function is the partition's default. -/
abbrev FieldPartition := DexField → ConstantValue

/-- Static or instance field walk selector. -/
inductive FieldType : Type where
  | STATIC
  | INSTANCE
deriving DecidableEq, Repr

/-- Method-resolution search kinds of the external Resolver. -/
inductive MethodSearch : Type where
  | Direct
  | Static
  | Virtual
  | Super
  | Interface
  | InterfaceVirtual
  | Any
deriving DecidableEq, Repr

/-- Modelled from the spec: the external Resolver's `opcode_to_search`,
mapping each invocation opcode to its resolution kind (ordinary virtual
resolution for invoke-virtual, and so on). -/
def opcode_to_search : IROpcode → MethodSearch
  | .invokeDirect => .Direct
  | .invokeStatic => .Static
  | .invokeVirtual => .Virtual
  | .invokeSuper => .Super
  | .invokeInterface => .Interface
  | _ => .Any

/-- The external global resolvers `resolve_field` / `resolve_method`,
supplied as data. -/
structure Resolver : Type where
  field : Nat → Option DexField
  method : Nat → MethodSearch → Option DexMethod

/-- A Dex class as consumed here: its static and instance fields, the
abstract field environment at its class initializer's exit (`none` when the
class has no `<clinit>`; the intraprocedural analysis is a black box), the
encoded default values of its fields converted to abstract values, its
constructors, and whether it is external. -/
structure DexClass : Type where
  typ : Nat
  sfields : List DexField
  ifields : List DexField
  clinitExit : Option FieldEnvironment
  encodedValue : DexField → ConstantValue
  ctors : List DexMethod
  isExternal : Bool

/-- Fields of a class selected by `FieldType`. -/
def fields_of (cls : DexClass) : FieldType → List DexField
  | .STATIC => cls.sfields
  | .INSTANCE => cls.ifields

/-- Walk all the static or instance fields in `cls`, copying their bindings
in `field_env` over to `field_partition` (so fields unbound in the
environment, implicitly Top, are explicitly bound to Top). -/
def set_fields_in_partition (cls : DexClass) (field_env : FieldEnvironment)
    (field_type : FieldType) (field_partition : FieldPartition) : FieldPartition :=
  (fields_of cls field_type).foldl
    (fun p field => upd p field (field_env field)) field_partition

/-- Record in the partition the values of the static fields after the class
initializers have finished executing: one class's contribution
(`analyze_clinits` loop body).  With no `<clinit>`, the initial field
values are simply the encoded values. -/
def analyze_clinit_for (cls : DexClass) (field_partition : FieldPartition) :
    FieldPartition :=
  match cls.clinitExit with
  | none =>
      set_fields_in_partition cls cls.encodedValue FieldType.STATIC field_partition
  | some env =>
      set_fields_in_partition cls env FieldType.STATIC field_partition

/-- Record in the partition the values of the static fields after all class
initializers have finished executing (`analyze_clinits`). -/
def analyze_clinits (scope : List DexClass) (field_partition : FieldPartition) :
    FieldPartition :=
  scope.foldl (fun p cls => analyze_clinit_for cls p) field_partition

/-- Checks whether a field is not an eligible instance field
(`not_eligible_ifield`). -/
def not_eligible_ifield (field : DexField) : Bool :=
  field.isStatic || field.isExternal || !field.canDelete || field.isVolatile

/-- All fields of the scope, in walk order (`walk::fields`). -/
def scope_fields : List DexClass → List DexField
  | [] => []
  | cls :: rest => cls.sfields ++ cls.ifields ++ scope_fields rest

/-- Initialize non-external, deletable instance fields' value to be 0, or
to Bottom for definitely-assigned ones (`initialize_ifields`). -/
def initialize_ifields (scope : List DexClass) (field_partition : FieldPartition)
    (definitely_assigned_ifields : List DexField) : FieldPartition :=
  (scope_fields scope).foldl
    (fun p field =>
      if not_eligible_ifield field then p
      else
        upd p field
          (if field ∈ definitely_assigned_ifields then ConstantValue.bot
           else ConstantValue.const 0))
    field_partition

/-- One step of the field-classification walk of the `WholeProgramState`
constructor: blocklisted declaring class excluded; static non-root fields
known; eligible instance fields known. -/
def classify_field (field_blocklist : List Nat) (acc : List DexField)
    (field : DexField) : List DexField :=
  if field.cls ∈ field_blocklist then acc
  else
    let acc1 :=
      if field.isStatic && !field.isRoot then insertElem field acc else acc
    if not_eligible_ifield field then acc1 else insertElem field acc1

/-- The known-field set built by the constructor's field walk. -/
def known_fields_of (field_blocklist : List Nat) (fields : List DexField) :
    List DexField :=
  fields.foldl (classify_field field_blocklist) []

/-- The known-method set built by the constructor: non-root non-true-virtual
methods with code, then every non-virtual method with code
(`walk::code` only visits methods that have code). -/
def known_methods_of (non_true_virtuals : List DexMethod)
    (scope_methods : List DexMethod) : List DexMethod :=
  let s := non_true_virtuals.foldl
    (fun acc m => if !m.isRoot && m.hasCode then insertElem m acc else acc) []
  scope_methods.foldl
    (fun acc m =>
      if m.hasCode then
        if !m.isVirtual && m.hasCode then insertElem m acc else acc
      else acc)
    s

/-- The field-store collection step (`collect_field_values`): at an sput or
iput to a resolvable known field, record the stored operand's abstract
value, except for a static-field store inside the declaring class's own
`<clinit>`, which is skipped. -/
def collect_field_values (R : Resolver) (known_fields : List DexField)
    (insn : IRInstruction) (env : ConstantEnvironment) (clinit_cls : Option Nat)
    (fields_value_tmp : List (DexField × ConstantValue)) :
    List (DexField × ConstantValue) :=
  if ¬(is_an_sput insn.op = true ∨ is_an_iput insn.op = true) then fields_value_tmp
  else
    match R.field insn.fieldRef with
    | none => fields_value_tmp
    | some field =>
        if field ∈ known_fields then
          if is_an_sput insn.op = true ∧ clinit_cls = some field.cls then
            fields_value_tmp
          else fields_value_tmp ++ [(field, env insn.src0)]
        else fields_value_tmp

/-- The return-value collection step (`collect_return_values`): a
return-void records the sentinel Top (the method does return); a
value-returning return records its operand's abstract value. -/
def collect_return_values (insn : IRInstruction) (env : ConstantEnvironment)
    (method : DexMethod) (methods_value_tmp : List (DexMethod × ConstantValue)) :
    List (DexMethod × ConstantValue) :=
  if is_a_return insn.op then
    if insn.op = IROpcode.returnVoid then
      methods_value_tmp ++ [(method, ConstantValue.top)]
    else methods_value_tmp ++ [(method, env insn.src0)]
  else methods_value_tmp

/-- A method body as the collector replays it: the instruction stream
paired with the abstract environment produced by the black-box
intraprocedural replay at each instruction. -/
structure MethodBody : Type where
  method : DexMethod
  points : List (IRInstruction × ConstantEnvironment)

/-- Field observations gathered from one method's body (the per-method part
of the parallel walk in `collect`); methods without code contribute
nothing. -/
def collect_method_field_obs (R : Resolver) (known_fields : List DexField)
    (mb : MethodBody) (acc : List (DexField × ConstantValue)) :
    List (DexField × ConstantValue) :=
  if mb.method.hasCode then
    mb.points.foldl
      (fun acc1 pt =>
        collect_field_values R known_fields pt.1 pt.2
          (if mb.method.isClinit then some mb.method.cls else none) acc1)
      acc
  else acc

/-- Return observations gathered from one method's body. -/
def collect_method_return_obs (mb : MethodBody)
    (acc : List (DexMethod × ConstantValue)) : List (DexMethod × ConstantValue) :=
  if mb.method.hasCode then
    mb.points.foldl (fun acc1 pt => collect_return_values pt.1 pt.2 mb.method acc1) acc
  else acc

/-- The reduce step of `collect`: fold every recorded observation into the
partition via a pointwise lattice join. -/
def reduce_obs {α : Type} [DecidableEq α] (partition : α → ConstantValue)
    (obs : List (α × ConstantValue)) : α → ConstantValue :=
  obs.foldl (fun p o => upd p o.1 (ConstantValue.join (p o.1) o.2)) partition

/-- Walk over the entire program, joining the values written to each field
and the values returned by each method (`collect`): seed the instance
fields, gather per-method observations, then reduce. -/
def collect (R : Resolver) (known_fields : List DexField) (scope : List DexClass)
    (definitely_assigned_ifields : List DexField) (bodies : List MethodBody)
    (field_partition : FieldPartition) (method_partition : DexMethod → ConstantValue) :
    FieldPartition × (DexMethod → ConstantValue) :=
  let fp := initialize_ifields scope field_partition definitely_assigned_ifields
  let fobs := bodies.foldl
    (fun acc mb => collect_method_field_obs R known_fields mb acc) []
  let mobs := bodies.foldl (fun acc mb => collect_method_return_obs mb acc) []
  (reduce_obs fp fobs, reduce_obs method_partition mobs)

/-- The call graph as consumed here: the dynamic-method flag and the
per-call-site return value lookup. -/
structure CallGraph : Type where
  dynamic : DexMethod → Bool
  return_value_at : IRInstruction → ConstantValue

/-- The whole-program state: known-entity sets, field and method
partitions, and the optional call graph. -/
structure WholeProgramState : Type where
  known_fields : List DexField
  known_methods : List DexMethod
  field_partition : FieldPartition
  method_partition : DexMethod → ConstantValue
  call_graph : Option CallGraph

/-- Whether the state was built with a call graph. -/
def WholeProgramState.has_call_graph (s : WholeProgramState) : Bool :=
  s.call_graph.isSome

/-- Modelled from the spec: `get_field_value` (declared in the state's
header, which is not among the provided sources) — a field not in the known
set always resolves to Top regardless of partition content; a known field
reads its partition entry. -/
def WholeProgramState.get_field_value (s : WholeProgramState) (field : DexField) :
    ConstantValue :=
  if field ∈ s.known_fields then s.field_partition field else ConstantValue.top

/-- Modelled from the spec: `get_return_value` (declared in the state's
header, which is not among the provided sources) — a method not in the
known set always resolves to Top regardless of partition content; a known
method reads its partition entry. -/
def WholeProgramState.get_return_value (s : WholeProgramState) (method : DexMethod) :
    ConstantValue :=
  if method ∈ s.known_methods then s.method_partition method else ConstantValue.top

/-- Modelled from the spec: the dynamic-method flag lookup through the call
graph. -/
def WholeProgramState.method_is_dynamic (s : WholeProgramState) (m : DexMethod) :
    Bool :=
  match s.call_graph with
  | some cg => cg.dynamic m
  | none => false

/-- Modelled from the spec: the call-site-specific return value lookup
through the call graph. -/
def WholeProgramState.get_return_value_from_cg (s : WholeProgramState)
    (insn : IRInstruction) : ConstantValue :=
  match s.call_graph with
  | some cg => cg.return_value_at insn
  | none => ConstantValue.top

/-- The `WholeProgramState` constructor: classify the known entities, run
the class-initializer evaluator, then the whole-program collection. -/
def mkWholeProgramState (R : Resolver) (scope : List DexClass)
    (scope_methods : List DexMethod) (bodies : List MethodBody)
    (non_true_virtuals : List DexMethod) (field_blocklist : List Nat)
    (definitely_assigned_ifields : List DexField) (cg : Option CallGraph) :
    WholeProgramState :=
  let kf := known_fields_of field_blocklist (scope_fields scope)
  let km := known_methods_of non_true_virtuals scope_methods
  let fp1 := analyze_clinits scope (fun _ => ConstantValue.bot)
  let res := collect R kf scope definitely_assigned_ifields bodies fp1
    (fun _ => ConstantValue.bot)
  { known_fields := kf, known_methods := km, field_partition := res.1,
    method_partition := res.2, call_graph := cg }

/-- `analyze_gets_helper`: refine a field read from the whole-program
state, declining on a missing state, unresolved field, or Top summary. -/
def analyze_gets_helper (R : Resolver)
    (whole_program_state : Option WholeProgramState) (insn : IRInstruction)
    (env : ConstantEnvironment) : Bool × ConstantEnvironment :=
  match whole_program_state with
  | none => (false, env)
  | some s =>
      match R.field insn.fieldRef with
      | none => (false, env)
      | some field =>
          let value := s.get_field_value field
          if value.is_top then (false, env)
          else (true, upd env RESULT_REGISTER value)

/-- `WholeProgramAwareAnalyzer::analyze_sget`. -/
def analyze_sget (R : Resolver) (whole_program_state : Option WholeProgramState)
    (insn : IRInstruction) (env : ConstantEnvironment) :
    Bool × ConstantEnvironment :=
  analyze_gets_helper R whole_program_state insn env

/-- `WholeProgramAwareAnalyzer::analyze_iget`. -/
def analyze_iget (R : Resolver) (whole_program_state : Option WholeProgramState)
    (insn : IRInstruction) (env : ConstantEnvironment) :
    Bool × ConstantEnvironment :=
  analyze_gets_helper R whole_program_state insn env

/-- `WholeProgramAwareAnalyzer::analyze_invoke`. -/
def analyze_invoke (R : Resolver) (whole_program_state : Option WholeProgramState)
    (insn : IRInstruction) (env : ConstantEnvironment) :
    Bool × ConstantEnvironment :=
  match whole_program_state with
  | none => (false, env)
  | some s =>
      if s.has_call_graph then
        let m0 := R.method insn.methodRef (opcode_to_search insn.op)
        let m1 :=
          if m0 = none ∧ opcode_to_search insn.op = MethodSearch.Virtual then
            R.method insn.methodRef MethodSearch.InterfaceVirtual
          else m0
        match m1 with
        | none => (false, env)
        | some method =>
            if s.method_is_dynamic method then (false, env)
            else
              let value := s.get_return_value_from_cg insn
              if value.is_top then (false, env)
              else (true, upd env RESULT_REGISTER value)
      else
        if insn.op ≠ IROpcode.invokeDirect ∧ insn.op ≠ IROpcode.invokeStatic ∧
            insn.op ≠ IROpcode.invokeVirtual then (false, env)
        else
          match R.method insn.methodRef (opcode_to_search insn.op) with
          | none => (false, env)
          | some method =>
              let value := s.get_return_value method
              if value.is_top then (false, env)
              else (true, upd env RESULT_REGISTER value)

/-- `WholeProgramState::collect_instance_finals` as state transformer on
the known-field set and the field partition (with more than one
constructor, every instance field is forced to Top; otherwise eligible
non-blocklisted fields become known and the rest are forced to Top). -/
def collect_instance_finals (field_blocklist : List Nat) (cls : DexClass)
    (eligible_ifields : List DexField) (field_env : FieldEnvironment)
    (known_fields : List DexField) (field_partition : FieldPartition) :
    List DexField × FieldPartition :=
  if cls.ctors.length > 1 then
    let fe := cls.ifields.foldl (fun e field => upd e field ConstantValue.top) field_env
    (known_fields, set_fields_in_partition cls fe FieldType.INSTANCE field_partition)
  else
    let st := cls.ifields.foldl
      (fun (st : List DexField × FieldEnvironment) field =>
        if field ∈ eligible_ifields ∧ field.cls ∉ field_blocklist then
          (insertElem field st.1, st.2)
        else (st.1, upd st.2 field ConstantValue.top))
      (known_fields, field_env)
    (st.1, set_fields_in_partition cls st.2 FieldType.INSTANCE field_partition)

/-- The per-instruction field observation emitted by `collect_field_values`
(zero or one pair), used to reason about the accumulation fold. -/
def field_emit (R : Resolver) (known_fields : List DexField) (clinit_cls : Option Nat)
    (pt : IRInstruction × ConstantEnvironment) : List (DexField × ConstantValue) :=
  if ¬(is_an_sput pt.1.op = true ∨ is_an_iput pt.1.op = true) then []
  else
    match R.field pt.1.fieldRef with
    | none => []
    | some field =>
        if field ∈ known_fields then
          if is_an_sput pt.1.op = true ∧ clinit_cls = some field.cls then []
          else [(field, pt.2 pt.1.src0)]
        else []

/-- The per-instruction return observation emitted by
`collect_return_values`. -/
def return_emit (method : DexMethod) (pt : IRInstruction × ConstantEnvironment) :
    List (DexMethod × ConstantValue) :=
  if is_a_return pt.1.op then
    if pt.1.op = IROpcode.returnVoid then [(method, ConstantValue.top)]
    else [(method, pt.2 pt.1.src0)]
  else []

/-- The observation values recorded for one entity, in order. -/
def valuesAt {α : Type} [DecidableEq α] (x : α) (obs : List (α × ConstantValue)) :
    List ConstantValue :=
  obs.filterMap (fun o => if o.1 = x then some o.2 else none)

/-- Fixture: an eligible static field of class 5. -/
def F0 : DexField :=
  { id := 0, cls := 5, isStatic := true, isExternal := false, isVolatile := false,
    canDelete := true, isRoot := false, isFinal := false }

/-- Fixture: an eligible instance field of class 6. -/
def F1 : DexField :=
  { id := 1, cls := 6, isStatic := false, isExternal := false, isVolatile := false,
    canDelete := true, isRoot := false, isFinal := false }

/-- Fixture: a volatile (ineligible) instance field of class 6. -/
def F2 : DexField :=
  { id := 2, cls := 6, isStatic := false, isExternal := false, isVolatile := true,
    canDelete := true, isRoot := false, isFinal := false }

/-- Fixture: a non-virtual method with code. -/
def M0 : DexMethod :=
  { id := 0, cls := 7, isVirtual := false, hasCode := true, isRoot := false,
    isClinit := false }

/-- Fixture: the class initializer of class 5. -/
def Mclinit5 : DexMethod :=
  { id := 1, cls := 5, isVirtual := false, hasCode := true, isRoot := false,
    isClinit := true }

/-- Fixture: two constructors of class 6. -/
def Mc1 : DexMethod :=
  { id := 2, cls := 6, isVirtual := false, hasCode := true, isRoot := false,
    isClinit := false }

/-- Fixture: second constructor of class 6. -/
def Mc2 : DexMethod :=
  { id := 3, cls := 6, isVirtual := false, hasCode := true, isRoot := false,
    isClinit := false }

/-- Fixture: a register environment holding 7 everywhere. -/
def env7 : ConstantEnvironment := fun _ => ConstantValue.const 7

/-- Fixture: a field environment holding 3 everywhere. -/
def fenv3 : FieldEnvironment := fun _ => ConstantValue.const 3

/-- Fixture: a resolver mapping every field reference to `F0` and every
method reference to `M0`. -/
def R0 : Resolver := { field := fun _ => some F0, method := fun _ _ => some M0 }

/-- Fixture instructions. -/
def insn_sput : IRInstruction :=
  { id := 0, op := .sput, src0 := .reg 1, fieldRef := 0, methodRef := 0 }

/-- Fixture: an iput instruction. -/
def insn_iput : IRInstruction :=
  { id := 1, op := .iput, src0 := .reg 1, fieldRef := 0, methodRef := 0 }

/-- Fixture: a return-void instruction. -/
def insn_rv : IRInstruction :=
  { id := 2, op := .returnVoid, src0 := .reg 0, fieldRef := 0, methodRef := 0 }

/-- Fixture: a value-returning return instruction. -/
def insn_r1 : IRInstruction :=
  { id := 3, op := .returnValue, src0 := .reg 1, fieldRef := 0, methodRef := 0 }

/-- Fixture: an invoke-static instruction. -/
def insn_invoke : IRInstruction :=
  { id := 4, op := .invokeStatic, src0 := .reg 0, fieldRef := 0, methodRef := 0 }

/-- Fixture: a whole-program state without a call graph, knowing `F0` and
`M0`. -/
def wps0 : WholeProgramState :=
  { known_fields := [F0], known_methods := [M0],
    field_partition := fun f => if f = F0 then ConstantValue.const 3 else ConstantValue.bot,
    method_partition := fun m => if m = M0 then ConstantValue.const 42 else ConstantValue.bot,
    call_graph := none }

/-- Fixture: a call graph where nothing is dynamic and every call site
returns 9. -/
def cg0 : CallGraph :=
  { dynamic := fun _ => false, return_value_at := fun _ => ConstantValue.const 9 }

/-- Fixture: class 5, with a `<clinit>` whose exit environment is `fenv3`
and one static field `F0`. -/
def cls5 : DexClass :=
  { typ := 5, sfields := [F0], ifields := [], clinitExit := some fenv3,
    encodedValue := fun _ => ConstantValue.const 1, ctors := [], isExternal := false }

/-- Fixture: class 6 with a single constructor and instance fields `F1`,
`F2`. -/
def cls6 : DexClass :=
  { typ := 6, sfields := [], ifields := [F1, F2], clinitExit := none,
    encodedValue := fun _ => ConstantValue.bot, ctors := [Mc1], isExternal := false }

/-- Fixture: class 6 variant with two constructors. -/
def cls6m : DexClass :=
  { typ := 6, sfields := [], ifields := [F1, F2], clinitExit := none,
    encodedValue := fun _ => ConstantValue.bot, ctors := [Mc1, Mc2], isExternal := false }

/-- Fixture: the body of class 5's initializer, storing 1 then 2 into `F0`. -/
def mb_clinit5 : MethodBody :=
  { method := Mclinit5,
    points := [(insn_sput, fun _ => ConstantValue.const 1),
               (insn_sput, fun _ => ConstantValue.const 2)] }

/-- Fixture: a body with no return instruction at all. -/
def mb_noreturn : MethodBody :=
  { method := M0, points := [(insn_sput, env7)] }

/-- Fixture: a body whose every path ends in return-void. -/
def mb_void : MethodBody :=
  { method := M0, points := [(insn_rv, env7), (insn_rv, env7)] }

section Lemmas

/-- Joining with bot on the right is the identity. -/
theorem ConstantValue.join_bot_right (v : ConstantValue) :
    v.join ConstantValue.bot = v := by
  cases v <;> rfl

/-- Joining with top on the right gives top. -/
theorem ConstantValue.join_top_right (v : ConstantValue) :
    v.join ConstantValue.top = ConstantValue.top := by
  cases v <;> rfl

/-- Join is commutative. -/
theorem ConstantValue.join_comm (a b : ConstantValue) : a.join b = b.join a := by
  cases a <;> cases b <;> simp only [join]
  rename_i m n
  by_cases h : m = n
  · subst h; simp
  · rw [if_neg h, if_neg fun hh => h hh.symm]

/-- Join is associative. -/
theorem ConstantValue.join_assoc (a b c : ConstantValue) :
    (a.join b).join c = a.join (b.join c) := by
  cases a <;> cases b <;> cases c <;> simp only [join] <;> try rfl
  case const.const.bot m n =>
    by_cases h : m = n <;> simp [h, join]
  case const.const.top m n =>
    by_cases h : m = n <;> simp [h, join]
  case const.const.const m n k =>
    by_cases h1 : m = n <;> by_cases h2 : n = k <;>
      simp_all [join]

/-- Join is idempotent. -/
theorem ConstantValue.join_idem (a : ConstantValue) : a.join a = a := by
  cases a <;> simp [join]

/-- Folding join from top stays top. -/
theorem foldl_join_top (l : List ConstantValue) :
    List.foldl ConstantValue.join ConstantValue.top l = ConstantValue.top := by
  induction l with
  | nil => rfl
  | cons v rest ih => simpa using ih

/-- Folding join over a nonempty all-top list reaches top. -/
theorem foldl_join_all_top (b : ConstantValue) (vs : List ConstantValue)
    (hne : vs ≠ []) (hall : ∀ v ∈ vs, v = ConstantValue.top) :
    List.foldl ConstantValue.join b vs = ConstantValue.top := by
  cases vs with
  | nil => exact absurd rfl hne
  | cons v rest =>
      have hv : v = ConstantValue.top := hall v (List.mem_cons_self v rest)
      subst hv
      simp [ConstantValue.join_top_right, foldl_join_top]

/-- Membership in `insertElem`. -/
theorem mem_insertElem {α : Type} [DecidableEq α] (a b : α) (s : List α) :
    b ∈ insertElem a s ↔ b = a ∨ b ∈ s := by
  unfold insertElem
  split_ifs with h
  · constructor
    · exact Or.inr
    · rintro (rfl | hb)
      · exact h
      · exact hb
  · simp [List.mem_cons]

/-- Value of a fold of unconditional pointwise writes. -/
theorem foldl_upd_apply {α β : Type} [DecidableEq α] (fields : List α)
    (fenv : α → β) (part : α → β) (f : α) :
    (fields.foldl (fun p g => upd p g (fenv g)) part) f =
      if f ∈ fields then fenv f else part f := by
  induction fields generalizing part with
  | nil => simp
  | cons g rest ih =>
      simp only [List.foldl_cons, ih, List.mem_cons]
      by_cases hf : f ∈ rest
      · simp [hf]
      · by_cases hg : f = g <;> simp [hf, hg, upd]

/-- Value of a fold of writes guarded by a per-key predicate. -/
theorem foldl_upd_guard_apply {α β : Type} [DecidableEq α] (fields : List α)
    (q : α → Bool) (fenv : α → β) (part : α → β) (f : α) :
    (fields.foldl (fun p g => if q g then p else upd p g (fenv g)) part) f =
      if f ∈ fields ∧ q f = false then fenv f else part f := by
  induction fields generalizing part with
  | nil => simp
  | cons g rest ih =>
      simp only [List.foldl_cons, ih, List.mem_cons]
      by_cases hq : q g
      · by_cases hf : f ∈ rest ∧ q f = false
        · simp [hf, hq]
        · have hno : ¬((f = g ∨ f ∈ rest) ∧ q f = false) := by
            rintro ⟨hmem, hqf⟩
            rcases hmem with rfl | hmem
            · simp [hqf] at hq
            · exact hf ⟨hmem, hqf⟩
          simp [hf, hq, hno]
      · by_cases hf : f ∈ rest ∧ q f = false
        · simp [hf, hq]
        · by_cases hg : f = g
          · subst hg
            have hqf : q f = false := by simpa using hq
            simp [hf, hq, upd, hqf]
          · have hno : ¬((f = g ∨ f ∈ rest) ∧ q f = false) := by
              rintro ⟨hmem, hqf⟩
              rcases hmem with rfl | hmem
              · exact hg rfl
              · exact hf ⟨hmem, hqf⟩
            simp [hf, hq, hno, upd, hg]

/-- The reduce step evaluated at one entity is a join-fold of the values
recorded for that entity over the seeded value. -/
theorem reduce_obs_apply {α : Type} [DecidableEq α] (p : α → ConstantValue)
    (obs : List (α × ConstantValue)) (x : α) :
    reduce_obs p obs x = List.foldl ConstantValue.join (p x) (valuesAt x obs) := by
  induction obs generalizing p with
  | nil => rfl
  | cons o rest ih =>
      simp only [reduce_obs, List.foldl_cons, valuesAt, List.filterMap_cons] at *
      by_cases h : o.1 = x
      · subst h
        rw [ih]
        simp [upd]
      · rw [ih]
        have h2 : ¬ x = o.1 := fun hh => h hh.symm
        simp [upd, h, h2]

/-- Membership in the per-entity value list. -/
theorem mem_valuesAt {α : Type} [DecidableEq α] (x : α) (v : ConstantValue)
    (obs : List (α × ConstantValue)) : v ∈ valuesAt x obs ↔ (x, v) ∈ obs := by
  simp only [valuesAt, List.mem_filterMap]
  constructor
  · rintro ⟨⟨a, b⟩, hmem, heq⟩
    split_ifs at heq with h
    cases heq
    subst h
    simpa using hmem
  · intro hmem
    exact ⟨(x, v), hmem, by simp⟩

/-- An entity with no recorded observation keeps its seeded value through
the reduce step. -/
theorem reduce_obs_not_mem {α : Type} [DecidableEq α] (p : α → ConstantValue)
    (obs : List (α × ConstantValue)) (x : α)
    (h : ∀ v : ConstantValue, (x, v) ∉ obs) : reduce_obs p obs x = p x := by
  rw [reduce_obs_apply]
  have hnil : valuesAt x obs = [] := by
    rcases hvs : valuesAt x obs with _ | ⟨v, rest⟩
    · rfl
    · exfalso
      have : v ∈ valuesAt x obs := by rw [hvs]; exact List.mem_cons_self v rest
      exact h v ((mem_valuesAt x v obs).mp this)
  rw [hnil]
  rfl

/-- `collect_field_values` appends exactly the emitted observation. -/
theorem cfv_emit (R : Resolver) (known_fields : List DexField)
    (insn : IRInstruction) (env : ConstantEnvironment) (clinit_cls : Option Nat)
    (tmp : List (DexField × ConstantValue)) :
    collect_field_values R known_fields insn env clinit_cls tmp =
      tmp ++ field_emit R known_fields clinit_cls (insn, env) := by
  simp only [collect_field_values, field_emit]
  split
  · simp
  · cases R.field insn.fieldRef with
    | none => simp
    | some f =>
        dsimp only
        split_ifs <;> simp

/-- `collect_return_values` appends exactly the emitted observation. -/
theorem crv_emit (insn : IRInstruction) (env : ConstantEnvironment)
    (method : DexMethod) (tmp : List (DexMethod × ConstantValue)) :
    collect_return_values insn env method tmp =
      tmp ++ return_emit method (insn, env) := by
  simp only [collect_return_values, return_emit]
  split_ifs <;> simp

/-- Membership in an accumulate-by-append fold. -/
theorem foldl_append_mem {α β : Type} (l : List β) (g : β → List α)
    (acc : List α) (x : α) :
    x ∈ l.foldl (fun a pt => a ++ g pt) acc ↔ x ∈ acc ∨ ∃ pt ∈ l, x ∈ g pt := by
  induction l generalizing acc with
  | nil => simp
  | cons b rest ih =>
      simp only [List.foldl_cons, ih, List.mem_append]
      constructor
      · rintro ((h | h) | ⟨pt, hpt, hx⟩)
        · exact Or.inl h
        · exact Or.inr ⟨b, List.mem_cons_self b rest, h⟩
        · exact Or.inr ⟨pt, List.mem_cons_of_mem b hpt, hx⟩
      · rintro (h | ⟨pt, hpt, hx⟩)
        · exact Or.inl (Or.inl h)
        · rcases List.mem_cons.mp hpt with rfl | hpt
          · exact Or.inl (Or.inr hx)
          · exact Or.inr ⟨pt, hpt, hx⟩

/-- Membership in the field observations of one method body. -/
theorem mem_collect_method_field_obs (R : Resolver) (known_fields : List DexField)
    (mb : MethodBody) (acc : List (DexField × ConstantValue))
    (x : DexField × ConstantValue) :
    x ∈ collect_method_field_obs R known_fields mb acc ↔
      x ∈ acc ∨ (mb.method.hasCode = true ∧ ∃ pt ∈ mb.points,
        x ∈ field_emit R known_fields
          (if mb.method.isClinit then some mb.method.cls else none) pt) := by
  unfold collect_method_field_obs
  by_cases hc : mb.method.hasCode = true
  · rw [if_pos hc]
    have heq : (fun acc1 (pt : IRInstruction × ConstantEnvironment) =>
        collect_field_values R known_fields pt.1 pt.2
          (if mb.method.isClinit then some mb.method.cls else none) acc1) =
        (fun acc1 pt => acc1 ++ field_emit R known_fields
          (if mb.method.isClinit then some mb.method.cls else none) pt) := by
      funext acc1 pt
      rw [cfv_emit]
    rw [heq, foldl_append_mem]
    simp [hc]
  · rw [if_neg hc]
    simp [hc]

/-- Membership in the return observations of one method body. -/
theorem mem_collect_method_return_obs (mb : MethodBody)
    (acc : List (DexMethod × ConstantValue)) (x : DexMethod × ConstantValue) :
    x ∈ collect_method_return_obs mb acc ↔
      x ∈ acc ∨ (mb.method.hasCode = true ∧ ∃ pt ∈ mb.points,
        x ∈ return_emit mb.method pt) := by
  unfold collect_method_return_obs
  by_cases hc : mb.method.hasCode = true
  · rw [if_pos hc]
    have heq : (fun acc1 (pt : IRInstruction × ConstantEnvironment) =>
        collect_return_values pt.1 pt.2 mb.method acc1) =
        (fun acc1 pt => acc1 ++ return_emit mb.method pt) := by
      funext acc1 pt
      rw [crv_emit]
    rw [heq, foldl_append_mem]
    simp [hc]
  · rw [if_neg hc]
    simp [hc]

/-- What a membership in a field emission implies. -/
theorem mem_field_emit (R : Resolver) (known_fields : List DexField)
    (clinit_cls : Option Nat) (pt : IRInstruction × ConstantEnvironment)
    (F : DexField) (v : ConstantValue)
    (h : (F, v) ∈ field_emit R known_fields clinit_cls pt) :
    R.field pt.1.fieldRef = some F ∧ F ∈ known_fields ∧ v = pt.2 pt.1.src0 ∧
      ¬(is_an_sput pt.1.op = true ∧ clinit_cls = some F.cls) ∧
      (is_an_sput pt.1.op = true ∨ is_an_iput pt.1.op = true) := by
  unfold field_emit at h
  by_cases h1 : (is_an_sput pt.1.op = true ∨ is_an_iput pt.1.op = true)
  · rw [if_neg (not_not_intro h1)] at h
    rcases hR : R.field pt.1.fieldRef with _ | f
    · rw [hR] at h
      cases h
    · rw [hR] at h
      dsimp only at h
      split_ifs at h with h2 h3
      · cases h
      · have heq := List.mem_singleton.mp h
        have hF : F = f := congrArg Prod.fst heq
        have hv : v = pt.2 pt.1.src0 := congrArg Prod.snd heq
        subst hF
        exact ⟨rfl, h2, hv, h3, h1⟩
      · cases h
  · rw [if_pos h1] at h
    cases h

/-- Membership in a return emission. -/
theorem mem_return_emit (m m' : DexMethod) (pt : IRInstruction × ConstantEnvironment)
    (v : ConstantValue) :
    (m', v) ∈ return_emit m pt ↔
      m' = m ∧ is_a_return pt.1.op = true ∧
        ((pt.1.op = IROpcode.returnVoid ∧ v = ConstantValue.top) ∨
         (pt.1.op ≠ IROpcode.returnVoid ∧ v = pt.2 pt.1.src0)) := by
  unfold return_emit
  split_ifs with h1 h2
  · constructor
    · intro hmem
      have heq := List.mem_singleton.mp hmem
      exact ⟨congrArg Prod.fst heq, h1, Or.inl ⟨h2, congrArg Prod.snd heq⟩⟩
    · rintro ⟨rfl, _, (⟨_, rfl⟩ | ⟨hne, _⟩)⟩
      · exact List.mem_singleton.mpr rfl
      · exact absurd h2 hne
  · constructor
    · intro hmem
      have heq := List.mem_singleton.mp hmem
      exact ⟨congrArg Prod.fst heq, h1, Or.inr ⟨h2, congrArg Prod.snd heq⟩⟩
    · rintro ⟨rfl, _, (⟨hv0, _⟩ | ⟨_, rfl⟩)⟩
      · exact absurd hv0 h2
      · exact List.mem_singleton.mpr rfl
  · simp [h1]

/-- A fold of return collections over return-free points is the identity. -/
theorem foldl_crv_no_return (m : DexMethod)
    (l : List (IRInstruction × ConstantEnvironment))
    (h : ∀ pt ∈ l, is_a_return pt.1.op = false)
    (acc : List (DexMethod × ConstantValue)) :
    l.foldl (fun acc1 pt => collect_return_values pt.1 pt.2 m acc1) acc = acc := by
  induction l generalizing acc with
  | nil => rfl
  | cons pt rest ih =>
      have hpt := h pt (List.mem_cons_self pt rest)
      simp only [List.foldl_cons]
      rw [show collect_return_values pt.1 pt.2 m acc = acc from by
        simp [collect_return_values, hpt]]
      exact ih (fun q hq => h q (List.mem_cons_of_mem pt hq)) acc

end Lemmas

section Claims

/-- C1: during the collection pass, a static-field store whose resolved
field's declaring class equals the class of the `<clinit>` being analyzed
is skipped (no observation recorded), while every other store to a known
field records the stored operand's abstract value; consequently a clinit's
own static fields receive no observation from the clinit body, so the
reduce step leaves them at the value seeded by the class-initializer
evaluator. -/
theorem C1_clinit_store_suppression :
    (∀ (R : Resolver) (kf : List DexField) (insn : IRInstruction)
        (env : ConstantEnvironment) (f : DexField) (c : Nat)
        (tmp : List (DexField × ConstantValue)),
        is_an_sput insn.op = true → R.field insn.fieldRef = some f → f.cls = c →
        collect_field_values R kf insn env (some c) tmp = tmp)
    ∧
    (∀ (R : Resolver) (kf : List DexField) (insn : IRInstruction)
        (env : ConstantEnvironment) (f : DexField) (cc : Option Nat)
        (tmp : List (DexField × ConstantValue)),
        (is_an_sput insn.op = true ∨ is_an_iput insn.op = true) →
        R.field insn.fieldRef = some f → f ∈ kf →
        ¬(is_an_sput insn.op = true ∧ cc = some f.cls) →
        collect_field_values R kf insn env cc tmp = tmp ++ [(f, env insn.src0)])
    ∧
    (∀ (R : Resolver) (kf : List DexField) (mb : MethodBody) (F : DexField)
        (acc : List (DexField × ConstantValue)) (v : ConstantValue),
        mb.method.isClinit = true → mb.method.cls = F.cls →
        (∀ pt ∈ mb.points, R.field pt.1.fieldRef = some F →
          is_an_sput pt.1.op = true) →
        (F, v) ∈ collect_method_field_obs R kf mb acc → (F, v) ∈ acc)
    ∧
    (∀ (p : FieldPartition) (obs : List (DexField × ConstantValue)) (F : DexField),
        (∀ v : ConstantValue, (F, v) ∉ obs) → reduce_obs p obs F = p F) := by
  refine ⟨?_, ?_, ?_, ?_⟩
  · intro R kf insn env f c tmp hs hR hc
    subst hc
    simp [collect_field_values, hs, hR]
  · intro R kf insn env f cc tmp hput hR hkf hskip
    simp [collect_field_values, hput, hR, hkf, hskip]
  · intro R kf mb F acc v hclinit hcls hsput hmem
    rcases (mem_collect_method_field_obs R kf mb acc (F, v)).mp hmem with h | ⟨_, pt, hpt, hemit⟩
    · exact h
    · exfalso
      obtain ⟨hres, _, _, hnskip, _⟩ := mem_field_emit R kf _ pt F v hemit
      exact hnskip ⟨hsput pt hpt hres, by simp [hclinit, hcls]⟩
  · intro p obs F h
    exact reduce_obs_not_mem p obs F h

/-- C1 witness: a store of 1 into `F0` inside class 5's own initializer is
skipped. -/
theorem C1_witness :
    is_an_sput insn_sput.op = true ∧ R0.field insn_sput.fieldRef = some F0 ∧
      F0.cls = 5 ∧
      collect_field_values R0 [F0] insn_sput env7 (some 5) [] = [] :=
  ⟨rfl, rfl, rfl, C1_clinit_store_suppression.1 R0 [F0] insn_sput env7 F0 5 [] rfl rfl rfl⟩

/-- C2: return-void records the sentinel Top for the method, a
value-returning return records its operand's abstract value, non-return
instructions record nothing; a method body with no return instruction
contributes no observation and reduces to Bottom, while a body whose every
return is return-void (and that has at least one) reduces to Top. -/
theorem C2_return_values :
    (∀ (insn : IRInstruction) (env : ConstantEnvironment) (m : DexMethod)
        (tmp : List (DexMethod × ConstantValue)), insn.op = IROpcode.returnVoid →
        collect_return_values insn env m tmp = tmp ++ [(m, ConstantValue.top)])
    ∧
    (∀ (insn : IRInstruction) (env : ConstantEnvironment) (m : DexMethod)
        (tmp : List (DexMethod × ConstantValue)), insn.op = IROpcode.returnValue →
        collect_return_values insn env m tmp = tmp ++ [(m, env insn.src0)])
    ∧
    (∀ (insn : IRInstruction) (env : ConstantEnvironment) (m : DexMethod)
        (tmp : List (DexMethod × ConstantValue)), is_a_return insn.op = false →
        collect_return_values insn env m tmp = tmp)
    ∧
    (∀ (mb : MethodBody) (acc : List (DexMethod × ConstantValue)),
        (∀ pt ∈ mb.points, is_a_return pt.1.op = false) →
        collect_method_return_obs mb acc = acc)
    ∧
    (∀ mb : MethodBody, (∀ pt ∈ mb.points, is_a_return pt.1.op = false) →
        reduce_obs (fun _ => ConstantValue.bot) (collect_method_return_obs mb [])
          mb.method = ConstantValue.bot)
    ∧
    (∀ mb : MethodBody, mb.method.hasCode = true →
        (∀ pt ∈ mb.points, is_a_return pt.1.op = true →
          pt.1.op = IROpcode.returnVoid) →
        (∃ pt ∈ mb.points, pt.1.op = IROpcode.returnVoid) →
        reduce_obs (fun _ => ConstantValue.bot) (collect_method_return_obs mb [])
          mb.method = ConstantValue.top) := by
  have hnoret : ∀ (mb : MethodBody) (acc : List (DexMethod × ConstantValue)),
      (∀ pt ∈ mb.points, is_a_return pt.1.op = false) →
      collect_method_return_obs mb acc = acc := by
    intro mb acc h
    unfold collect_method_return_obs
    split_ifs with hc
    · exact foldl_crv_no_return mb.method mb.points h acc
    · rfl
  refine ⟨?_, ?_, ?_, hnoret, ?_, ?_⟩
  · intro insn env m tmp h
    simp [collect_return_values, h, is_a_return]
  · intro insn env m tmp h
    simp [collect_return_values, h, is_a_return]
  · intro insn env m tmp h
    simp [collect_return_values, h]
  · intro mb h
    rw [hnoret mb [] h]
    rfl
  · intro mb hcode hallvoid ⟨pt0, hpt0, hvoid0⟩
    rw [reduce_obs_apply]
    apply foldl_join_all_top
    · apply List.ne_nil_of_mem (a := ConstantValue.top)
      rw [mem_valuesAt]
      rw [mem_collect_method_return_obs]
      refine Or.inr ⟨hcode, pt0, hpt0, ?_⟩
      rw [mem_return_emit]
      exact ⟨rfl, by simp [is_a_return, hvoid0], Or.inl ⟨hvoid0, rfl⟩⟩
    · intro v hv
      rw [mem_valuesAt] at hv
      rcases (mem_collect_method_return_obs mb [] (mb.method, v)).mp hv with h | ⟨_, pt, hpt, hemit⟩
      · cases h
      · rw [mem_return_emit] at hemit
        rcases hemit with ⟨_, hret, (⟨_, hv⟩ | ⟨hnv, _⟩)⟩
        · exact hv
        · exact absurd (hallvoid pt hpt hret) hnv

/-- C2 witness: a return-void records Top, and the all-void fixture body
reduces to Top. -/
theorem C2_witness :
    insn_rv.op = IROpcode.returnVoid ∧
      collect_return_values insn_rv env7 M0 [] = [(M0, ConstantValue.top)] :=
  ⟨rfl, C2_return_values.1 insn_rv env7 M0 [] rfl⟩

/-- C4 helper: a class whose static fields do not contain `f` leaves the
partition unchanged at `f`. -/
theorem analyze_clinit_for_not_mem (cls : DexClass) (p : FieldPartition)
    (f : DexField) (h : f ∉ cls.sfields) : analyze_clinit_for cls p f = p f := by
  unfold analyze_clinit_for set_fields_in_partition fields_of
  cases cls.clinitExit <;> simp [foldl_upd_apply, h]

/-- C4 helper: a class list none of whose members declares `f` leaves the
partition unchanged at `f`. -/
theorem analyze_clinits_not_mem (scope : List DexClass) (p : FieldPartition)
    (f : DexField) (h : ∀ cls ∈ scope, f ∉ cls.sfields) :
    analyze_clinits scope p f = p f := by
  induction scope generalizing p with
  | nil => rfl
  | cons cls rest ih =>
      unfold analyze_clinits at *
      simp only [List.foldl_cons]
      rw [ih (analyze_clinit_for cls p)
        (fun c hc => h c (List.mem_cons_of_mem cls hc))]
      exact analyze_clinit_for_not_mem cls p f (h cls (List.mem_cons_self cls rest))

/-- C4: the class-initializer evaluator writes an explicit binding for
every static field of every class in the scope — the encoded default value
when the class has no initializer, the field's value in the initializer's
exit environment otherwise, and in particular an explicit Top for a field
unbound at the exit (never an absent entry). -/
theorem C4_clinit_bindings :
    (∀ (cls : DexClass) (part : FieldPartition) (f : DexField), f ∈ cls.sfields →
        analyze_clinit_for cls part f =
          (match cls.clinitExit with
           | none => cls.encodedValue f
           | some env => env f))
    ∧
    (∀ (l1 : List DexClass) (cls : DexClass) (l2 : List DexClass)
        (part : FieldPartition) (f : DexField), f ∈ cls.sfields →
        (∀ cls2 ∈ l2, f ∉ cls2.sfields) →
        analyze_clinits (l1 ++ cls :: l2) part f =
          (match cls.clinitExit with
           | none => cls.encodedValue f
           | some env => env f)) := by
  have hone : ∀ (cls : DexClass) (part : FieldPartition) (f : DexField),
      f ∈ cls.sfields →
      analyze_clinit_for cls part f =
        (match cls.clinitExit with
         | none => cls.encodedValue f
         | some env => env f) := by
    intro cls part f hmem
    unfold analyze_clinit_for set_fields_in_partition fields_of
    cases cls.clinitExit <;> simp [foldl_upd_apply, hmem]
  refine ⟨hone, ?_⟩
  intro l1 cls l2 part f hmem hrest
  unfold analyze_clinits
  rw [List.foldl_append, List.foldl_cons]
  have := analyze_clinits_not_mem l2
    (analyze_clinit_for cls (l1.foldl (fun p c => analyze_clinit_for c p) part)) f hrest
  unfold analyze_clinits at this
  rw [this]
  exact hone cls _ f hmem

/-- C4 witness: the static field `F0` of class 5 gets the clinit-exit value
3, and under an empty exit binding it would get Top explicitly. -/
theorem C4_witness :
    F0 ∈ cls5.sfields ∧
      analyze_clinits [cls5] (fun _ => ConstantValue.bot) F0 = ConstantValue.const 3 := by
  have h := C4_clinit_bindings.2 [] cls5 [] (fun _ => ConstantValue.bot) F0
    (by simp [cls5]) (by intro c hc; cases hc)
  exact ⟨by simp [cls5], by simpa [cls5, fenv3] using h⟩

/-- C6: before the collection walk, every eligible instance field is
seeded — to Bottom when definitely assigned, else to constant zero — while
ineligible fields are left untouched by the seeding step; and with no
method bodies the collected field partition equals this baseline. -/
theorem C6_ifield_seeding :
    (∀ (scope : List DexClass) (part : FieldPartition)
        (dai : List DexField) (f : DexField), f ∈ scope_fields scope →
        not_eligible_ifield f = false →
        initialize_ifields scope part dai f =
          (if f ∈ dai then ConstantValue.bot else ConstantValue.const 0))
    ∧
    (∀ (scope : List DexClass) (part : FieldPartition)
        (dai : List DexField) (f : DexField), not_eligible_ifield f = true →
        initialize_ifields scope part dai f = part f)
    ∧
    (∀ (R : Resolver) (kf : List DexField) (scope : List DexClass)
        (dai : List DexField) (fp : FieldPartition)
        (mp : DexMethod → ConstantValue) (f : DexField),
        f ∈ scope_fields scope → not_eligible_ifield f = false →
        (collect R kf scope dai [] fp mp).1 f =
          (if f ∈ dai then ConstantValue.bot else ConstantValue.const 0)) := by
  have h1 : ∀ (scope : List DexClass) (part : FieldPartition)
      (dai : List DexField) (f : DexField), f ∈ scope_fields scope →
      not_eligible_ifield f = false →
      initialize_ifields scope part dai f =
        (if f ∈ dai then ConstantValue.bot else ConstantValue.const 0) := by
    intro scope part dai f hmem hel
    have h := foldl_upd_guard_apply (scope_fields scope) not_eligible_ifield
      (fun g => if g ∈ dai then ConstantValue.bot else ConstantValue.const 0) part f
    rw [if_pos ⟨hmem, hel⟩] at h
    exact h
  refine ⟨h1, ?_, ?_⟩
  · intro scope part dai f hel
    have h := foldl_upd_guard_apply (scope_fields scope) not_eligible_ifield
      (fun g => if g ∈ dai then ConstantValue.bot else ConstantValue.const 0) part f
    rw [if_neg (by simp [hel])] at h
    exact h
  · intro R kf scope dai fp mp f hmem hel
    exact h1 scope fp dai f hmem hel

/-- C6 witness: with fixture class 6 in scope, the eligible instance field
`F1` is seeded to constant 0 (it is not definitely assigned), and the
volatile field `F2` is left at the prior partition value. -/
theorem C6_witness :
    F1 ∈ scope_fields [cls6] ∧ not_eligible_ifield F1 = false ∧
      initialize_ifields [cls6] (fun _ => ConstantValue.bot) [] F1 =
        ConstantValue.const 0 := by
  refine ⟨by simp [scope_fields, cls6], by rfl, ?_⟩
  have h := C6_ifield_seeding.1 [cls6] (fun _ => ConstantValue.bot) [] F1
    (by simp [scope_fields, cls6]) (by rfl)
  simpa using h

/-- Membership after one classification step. -/
theorem mem_classify_field (bl : List Nat) (acc : List DexField)
    (f g : DexField) :
    g ∈ classify_field bl acc f ↔
      g ∈ acc ∨ (g = f ∧ f.cls ∉ bl ∧
        ((f.isStatic = true ∧ f.isRoot = false) ∨
          not_eligible_ifield f = false)) := by
  unfold classify_field
  by_cases hbl : f.cls ∈ bl
  · rw [if_pos hbl]
    simp [hbl]
  · rw [if_neg hbl]
    by_cases hsr : (f.isStatic && !f.isRoot) = true
    · have hsr2 : f.isStatic = true ∧ f.isRoot = false := by
        simpa [Bool.and_eq_true, Bool.not_eq_true'] using hsr
      by_cases hne : not_eligible_ifield f = true
      · simp only [hsr, if_pos, hne, if_true, mem_insertElem]
        constructor
        · rintro (rfl | h)
          · exact Or.inr ⟨rfl, hbl, Or.inl hsr2⟩
          · exact Or.inl h
        · rintro (h | ⟨rfl, _, _⟩)
          · exact Or.inr h
          · exact Or.inl rfl
      · simp only [hsr, if_pos, hne, if_false, Bool.not_eq_true] at *
        rw [if_neg (by simp [hne])]
        simp only [mem_insertElem]
        constructor
        · rintro (rfl | (rfl | h))
          · exact Or.inr ⟨rfl, hbl, Or.inl hsr2⟩
          · exact Or.inr ⟨rfl, hbl, Or.inl hsr2⟩
          · exact Or.inl h
        · rintro (h | ⟨rfl, _, _⟩)
          · exact Or.inr (Or.inr h)
          · exact Or.inl rfl
    · have hsr2 : ¬(f.isStatic = true ∧ f.isRoot = false) := by
        intro ⟨ha, hb⟩
        simp [ha, hb] at hsr
      rw [if_neg hsr]
      by_cases hne : not_eligible_ifield f = true
      · rw [if_pos hne]
        simp only [Bool.not_eq_true] at *
        constructor
        · exact Or.inl
        · rintro (h | ⟨rfl, _, (habs | habs)⟩)
          · exact h
          · exact absurd habs hsr2
          · rw [hne] at habs
            cases habs
      · rw [if_neg hne]
        simp only [mem_insertElem, Bool.not_eq_true] at *
        constructor
        · rintro (rfl | h)
          · exact Or.inr ⟨rfl, hbl, Or.inr (by simpa using hne)⟩
          · exact Or.inl h
        · rintro (h | ⟨rfl, _, _⟩)
          · exact Or.inr h
          · exact Or.inl rfl

/-- Membership in the full classification fold. -/
theorem mem_known_fields_aux (bl : List Nat) (fields : List DexField)
    (acc : List DexField) (g : DexField) :
    g ∈ fields.foldl (classify_field bl) acc ↔
      g ∈ acc ∨ (g ∈ fields ∧ g.cls ∉ bl ∧
        ((g.isStatic = true ∧ g.isRoot = false) ∨
          not_eligible_ifield g = false)) := by
  induction fields generalizing acc with
  | nil => simp
  | cons f rest ih =>
      simp only [List.foldl_cons, ih, mem_classify_field, List.mem_cons]
      constructor
      · rintro ((h | ⟨rfl, hA⟩) | ⟨hmem, hA⟩)
        · exact Or.inl h
        · exact Or.inr ⟨Or.inl rfl, hA⟩
        · exact Or.inr ⟨Or.inr hmem, hA⟩
      · rintro (h | ⟨(rfl | hmem), hA⟩)
        · exact Or.inl (Or.inl h)
        · exact Or.inl (Or.inr ⟨rfl, hA⟩)
        · exact Or.inr ⟨hmem, hA⟩

/-- Membership in an insert-if fold. -/
theorem mem_foldl_insert_if {α : Type} [DecidableEq α] (q : α → Bool)
    (l : List α) (acc : List α) (x : α) :
    x ∈ l.foldl (fun a b => if q b then insertElem b a else a) acc ↔
      x ∈ acc ∨ (x ∈ l ∧ q x = true) := by
  induction l generalizing acc with
  | nil => simp
  | cons b rest ih =>
      simp only [List.foldl_cons, ih]
      by_cases hq : q b
      · rw [if_pos hq]
        simp only [mem_insertElem, List.mem_cons]
        constructor
        · rintro ((rfl | h) | ⟨hm, hx⟩)
          · exact Or.inr ⟨Or.inl rfl, hq⟩
          · exact Or.inl h
          · exact Or.inr ⟨Or.inr hm, hx⟩
        · rintro (h | ⟨(rfl | hm), hx⟩)
          · exact Or.inl (Or.inr h)
          · exact Or.inl (Or.inl rfl)
          · exact Or.inr ⟨hm, hx⟩
      · rw [if_neg hq]
        simp only [List.mem_cons]
        constructor
        · rintro (h | ⟨hm, hx⟩)
          · exact Or.inl h
          · exact Or.inr ⟨Or.inr hm, hx⟩
        · rintro (h | ⟨(rfl | hm), hx⟩)
          · exact Or.inl h
          · exact absurd hx hq
          · exact Or.inr ⟨hm, hx⟩

/-- C3: the known-entity sets satisfy exactly the classifier rules:
blocklisted declaring classes are excluded, a static field is known iff
non-root, an instance field is known iff non-static, non-external,
non-volatile and deletable, a supplied non-true-virtual method is known iff
non-root with code, every non-virtual method with code is known, and
nothing else is known. -/
theorem C3_classifier :
    (∀ (bl : List Nat) (fields : List DexField) (f : DexField),
        f ∈ known_fields_of bl fields ↔
          f ∈ fields ∧ f.cls ∉ bl ∧
            ((f.isStatic = true ∧ f.isRoot = false) ∨
             (f.isStatic = false ∧ f.isExternal = false ∧ f.isVolatile = false ∧
               f.canDelete = true)))
    ∧
    (∀ (ntv scope_methods : List DexMethod) (m : DexMethod),
        m ∈ known_methods_of ntv scope_methods ↔
          (m ∈ ntv ∧ m.isRoot = false ∧ m.hasCode = true) ∨
          (m ∈ scope_methods ∧ m.isVirtual = false ∧ m.hasCode = true)) := by
  constructor
  · intro bl fields f
    unfold known_fields_of
    rw [mem_known_fields_aux]
    have helig : not_eligible_ifield f = false ↔
        (f.isStatic = false ∧ f.isExternal = false ∧ f.isVolatile = false ∧
          f.canDelete = true) := by
      unfold not_eligible_ifield
      constructor
      · intro h
        simp only [Bool.or_eq_false_iff, Bool.not_eq_false'] at h
        exact ⟨h.1.1.1, h.1.1.2, h.2, h.1.2⟩
      · rintro ⟨h1, h2, h3, h4⟩
        simp [h1, h2, h3, h4]
    rw [helig]
    simp
  · intro ntv scope_methods m
    unfold known_methods_of
    have hstep : (fun (acc : List DexMethod) (mm : DexMethod) =>
        if mm.hasCode then
          if !mm.isVirtual && mm.hasCode then insertElem mm acc else acc
        else acc) =
        (fun acc mm =>
          if (mm.hasCode && (!mm.isVirtual && mm.hasCode)) then insertElem mm acc
          else acc) := by
      funext acc mm
      by_cases hc : mm.hasCode = true
      · by_cases hv : (!mm.isVirtual && mm.hasCode) = true <;>
          simp [hc, hv]
      · simp [hc, Bool.and_eq_true]
    rw [hstep, mem_foldl_insert_if, mem_foldl_insert_if]
    simp only [List.not_mem_nil, false_or, Bool.and_eq_true, Bool.not_eq_true']
    constructor
    · rintro (⟨hm, hr, hc⟩ | ⟨hm, hc, hv, _⟩)
      · exact Or.inl ⟨hm, hr, hc⟩
      · exact Or.inr ⟨hm, hv, hc⟩
    · rintro (⟨hm, hr, hc⟩ | ⟨hm, hv, hc⟩)
      · exact Or.inl ⟨hm, hr, hc⟩
      · exact Or.inr ⟨hm, hc, hv, hc⟩

/-- C3 witness: the concrete eligible static field `F0` is classified
known, and the non-virtual method with code `M0` is classified known. -/
theorem C3_witness :
    F0 ∈ known_fields_of [] [F0, F2] ∧ M0 ∈ known_methods_of [] [M0] := by
  constructor
  · exact (C3_classifier.1 [] [F0, F2] F0).mpr
      ⟨by simp, by simp, Or.inl ⟨rfl, rfl⟩⟩
  · exact (C3_classifier.2 [] [M0] M0).mpr (Or.inr ⟨by simp, rfl, rfl⟩)

/-- Join is right-commutative in the accumulating argument. -/
theorem ConstantValue.join_right_comm (a b c : ConstantValue) :
    (a.join b).join c = (a.join c).join b := by
  rw [ConstantValue.join_assoc, ConstantValue.join_assoc,
    ConstantValue.join_comm b c]

/-- Two reduce steps at arbitrary observations commute. -/
theorem reduce_step_comm {α : Type} [DecidableEq α] (p : α → ConstantValue)
    (o1 o2 : α × ConstantValue) :
    upd (upd p o1.1 ((p o1.1).join o1.2)) o2.1
        ((upd p o1.1 ((p o1.1).join o1.2)) o2.1 |>.join o2.2) =
      upd (upd p o2.1 ((p o2.1).join o2.2)) o1.1
        ((upd p o2.1 ((p o2.1).join o2.2)) o1.1 |>.join o1.2) := by
  funext x
  by_cases h1 : x = o1.1 <;> by_cases h2 : x = o2.1
  · subst h1
    simp [upd, h2]
    exact ConstantValue.join_right_comm _ _ _
  · subst h1
    have h2s : ¬o2.1 = o1.1 := fun hh => h2 hh.symm
    simp [upd, h2, h2s]
  · subst h2
    have h1s : ¬o1.1 = o2.1 := fun hh => h1 hh.symm
    simp [upd, h1, h1s]
  · simp [upd, h1, h2]

/-- Permutation invariance of the reduce step. -/
theorem reduce_obs_perm_aux {α : Type} [DecidableEq α]
    {obs obs2 : List (α × ConstantValue)} (h : obs.Perm obs2) :
    ∀ p : α → ConstantValue, reduce_obs p obs = reduce_obs p obs2 := by
  induction h with
  | nil => intro p; rfl
  | cons o _ ih =>
      intro p
      unfold reduce_obs at *
      simp only [List.foldl_cons]
      exact ih _
  | swap o1 o2 t =>
      intro p
      unfold reduce_obs
      simp only [List.foldl_cons]
      congr 1
      exact reduce_step_comm p o2 o1
  | trans _ _ ih1 ih2 => intro p; exact (ih1 p).trans (ih2 p)

/-- C9: the reduce step is order-independent — permuting the recorded
observation list yields the same reduced partition, join being
commutative, associative and idempotent. -/
theorem C9_join_order_independence :
    (∀ a b : ConstantValue, a.join b = b.join a)
    ∧ (∀ a b c : ConstantValue, (a.join b).join c = a.join (b.join c))
    ∧ (∀ a : ConstantValue, a.join a = a)
    ∧ (∀ (α : Type) (inst : DecidableEq α) (p : α → ConstantValue)
        (obs obs2 : List (α × ConstantValue)), obs.Perm obs2 →
        reduce_obs p obs = reduce_obs p obs2) := by
  refine ⟨ConstantValue.join_comm, ConstantValue.join_assoc,
    ConstantValue.join_idem, ?_⟩
  intro α inst p obs obs2 h
  exact reduce_obs_perm_aux h p

/-- C9 witness: swapping two concrete field observations leaves the
reduced partition unchanged. -/
theorem C9_witness :
    ([(F0, ConstantValue.const 1), (F1, ConstantValue.const 2)]).Perm
        [(F1, ConstantValue.const 2), (F0, ConstantValue.const 1)] ∧
      reduce_obs (fun _ => ConstantValue.bot)
          [(F0, ConstantValue.const 1), (F1, ConstantValue.const 2)] =
        reduce_obs (fun _ => ConstantValue.bot)
          [(F1, ConstantValue.const 2), (F0, ConstantValue.const 1)] := by
  have hperm : ([(F0, ConstantValue.const 1), (F1, ConstantValue.const 2)]).Perm
      [(F1, ConstantValue.const 2), (F0, ConstantValue.const 1)] :=
    List.Perm.swap (F1, ConstantValue.const 2) (F0, ConstantValue.const 1) []
  exact ⟨hperm, C9_join_order_independence.2.2.2 DexField inferInstance
    (fun _ => ConstantValue.bot) _ _ hperm⟩

/-- C5: a field outside the known-field set always resolves to Top through
`get_field_value`, whatever the partition holds for it. -/
theorem C5_unknown_field_top :
    ∀ (s : WholeProgramState) (f : DexField), f ∉ s.known_fields →
      s.get_field_value f = ConstantValue.top := by
  intro s f h
  unfold WholeProgramState.get_field_value
  rw [if_neg h]

/-- C5 witness: the unknown field `F2` resolves to Top in the fixture
state even though its partition entry is Bottom. -/
theorem C5_witness :
    F2 ∉ wps0.known_fields ∧ wps0.get_field_value F2 = ConstantValue.top :=
  ⟨by decide, C5_unknown_field_top wps0 F2 (by decide)⟩

/-- C8: `analyze_sget` and `analyze_iget` agree; both decline without a
whole-program state or on a Top field summary, leaving the environment
unchanged, and otherwise bind the result register to the summary value. -/
theorem C8_analyze_gets :
    (∀ (R : Resolver) (wps : Option WholeProgramState) (insn : IRInstruction)
        (env : ConstantEnvironment),
        analyze_sget R wps insn env = analyze_iget R wps insn env)
    ∧
    (∀ (R : Resolver) (insn : IRInstruction) (env : ConstantEnvironment),
        analyze_sget R none insn env = (false, env))
    ∧
    (∀ (R : Resolver) (s : WholeProgramState) (insn : IRInstruction)
        (env : ConstantEnvironment) (f : DexField),
        R.field insn.fieldRef = some f → (s.get_field_value f).is_top = true →
        analyze_sget R (some s) insn env = (false, env))
    ∧
    (∀ (R : Resolver) (s : WholeProgramState) (insn : IRInstruction)
        (env : ConstantEnvironment) (f : DexField),
        R.field insn.fieldRef = some f → (s.get_field_value f).is_top = false →
        analyze_sget R (some s) insn env =
          (true, upd env RESULT_REGISTER (s.get_field_value f)))
    ∧
    (∀ (R : Resolver) (wps : Option WholeProgramState) (insn : IRInstruction)
        (env : ConstantEnvironment),
        (analyze_sget R wps insn env).1 = false →
        (analyze_sget R wps insn env).2 = env) := by
  refine ⟨?_, ?_, ?_, ?_, ?_⟩
  · intro R wps insn env
    rfl
  · intro R insn env
    rfl
  · intro R s insn env f hR htop
    simp [analyze_sget, analyze_gets_helper, hR, htop]
  · intro R s insn env f hR htop
    simp [analyze_sget, analyze_gets_helper, hR, htop]
  · intro R wps insn env
    cases wps with
    | none => intro _; rfl
    | some s =>
        simp only [analyze_sget, analyze_gets_helper]
        cases hR : R.field insn.fieldRef with
        | none => intro _; rfl
        | some f =>
            dsimp only
            split_ifs with h
            · intro _; rfl
            · intro hfalse
              simp at hfalse

/-- C8 witness: in the fixture state, an sget of `F0` binds the result
register to the summary value 3. -/
theorem C8_witness :
    R0.field insn_sput.fieldRef = some F0 ∧
      (wps0.get_field_value F0).is_top = false ∧
      analyze_sget R0 (some wps0) insn_sput env7 =
        (true, upd env7 RESULT_REGISTER (wps0.get_field_value F0)) :=
  ⟨rfl, by decide, C8_analyze_gets.2.2.2.1 R0 wps0 insn_sput env7 F0 rfl (by decide)⟩

/-- C7: `analyze_invoke` refines only when it binds the result register;
without a call graph it handles only direct/static/virtual invokes,
declining on resolution failure or Top summary; with a call graph it
resolves with an interface-virtual fallback, declining on resolution
failure, dynamic targets, or Top call-site values; every decline leaves
the environment unchanged. -/
theorem C7_analyze_invoke :
    (∀ (R : Resolver) (insn : IRInstruction) (env : ConstantEnvironment),
        analyze_invoke R none insn env = (false, env))
    ∧
    (∀ (R : Resolver) (s : WholeProgramState) (insn : IRInstruction)
        (env : ConstantEnvironment), s.call_graph = none →
        insn.op ≠ IROpcode.invokeDirect → insn.op ≠ IROpcode.invokeStatic →
        insn.op ≠ IROpcode.invokeVirtual →
        analyze_invoke R (some s) insn env = (false, env))
    ∧
    (∀ (R : Resolver) (s : WholeProgramState) (insn : IRInstruction)
        (env : ConstantEnvironment), s.call_graph = none →
        (insn.op = IROpcode.invokeDirect ∨ insn.op = IROpcode.invokeStatic ∨
          insn.op = IROpcode.invokeVirtual) →
        R.method insn.methodRef (opcode_to_search insn.op) = none →
        analyze_invoke R (some s) insn env = (false, env))
    ∧
    (∀ (R : Resolver) (s : WholeProgramState) (insn : IRInstruction)
        (env : ConstantEnvironment) (m : DexMethod), s.call_graph = none →
        (insn.op = IROpcode.invokeDirect ∨ insn.op = IROpcode.invokeStatic ∨
          insn.op = IROpcode.invokeVirtual) →
        R.method insn.methodRef (opcode_to_search insn.op) = some m →
        (s.get_return_value m).is_top = true →
        analyze_invoke R (some s) insn env = (false, env))
    ∧
    (∀ (R : Resolver) (s : WholeProgramState) (insn : IRInstruction)
        (env : ConstantEnvironment) (m : DexMethod), s.call_graph = none →
        (insn.op = IROpcode.invokeDirect ∨ insn.op = IROpcode.invokeStatic ∨
          insn.op = IROpcode.invokeVirtual) →
        R.method insn.methodRef (opcode_to_search insn.op) = some m →
        (s.get_return_value m).is_top = false →
        analyze_invoke R (some s) insn env =
          (true, upd env RESULT_REGISTER (s.get_return_value m)))
    ∧
    (∀ (R : Resolver) (s : WholeProgramState) (cg : CallGraph)
        (insn : IRInstruction) (env : ConstantEnvironment),
        s.call_graph = some cg →
        R.method insn.methodRef (opcode_to_search insn.op) = none →
        (opcode_to_search insn.op = MethodSearch.Virtual →
          R.method insn.methodRef MethodSearch.InterfaceVirtual = none) →
        analyze_invoke R (some s) insn env = (false, env))
    ∧
    (∀ (R : Resolver) (s : WholeProgramState) (cg : CallGraph)
        (insn : IRInstruction) (env : ConstantEnvironment) (m : DexMethod),
        s.call_graph = some cg →
        (R.method insn.methodRef (opcode_to_search insn.op) = some m ∨
          (R.method insn.methodRef (opcode_to_search insn.op) = none ∧
            opcode_to_search insn.op = MethodSearch.Virtual ∧
            R.method insn.methodRef MethodSearch.InterfaceVirtual = some m)) →
        cg.dynamic m = true →
        analyze_invoke R (some s) insn env = (false, env))
    ∧
    (∀ (R : Resolver) (s : WholeProgramState) (cg : CallGraph)
        (insn : IRInstruction) (env : ConstantEnvironment) (m : DexMethod),
        s.call_graph = some cg →
        (R.method insn.methodRef (opcode_to_search insn.op) = some m ∨
          (R.method insn.methodRef (opcode_to_search insn.op) = none ∧
            opcode_to_search insn.op = MethodSearch.Virtual ∧
            R.method insn.methodRef MethodSearch.InterfaceVirtual = some m)) →
        cg.dynamic m = false →
        (cg.return_value_at insn).is_top = true →
        analyze_invoke R (some s) insn env = (false, env))
    ∧
    (∀ (R : Resolver) (s : WholeProgramState) (cg : CallGraph)
        (insn : IRInstruction) (env : ConstantEnvironment) (m : DexMethod),
        s.call_graph = some cg →
        (R.method insn.methodRef (opcode_to_search insn.op) = some m ∨
          (R.method insn.methodRef (opcode_to_search insn.op) = none ∧
            opcode_to_search insn.op = MethodSearch.Virtual ∧
            R.method insn.methodRef MethodSearch.InterfaceVirtual = some m)) →
        cg.dynamic m = false →
        (cg.return_value_at insn).is_top = false →
        analyze_invoke R (some s) insn env =
          (true, upd env RESULT_REGISTER (cg.return_value_at insn)))
    ∧
    (∀ (R : Resolver) (wps : Option WholeProgramState) (insn : IRInstruction)
        (env : ConstantEnvironment),
        (analyze_invoke R wps insn env).1 = false →
        (analyze_invoke R wps insn env).2 = env) := by
  have hcgval : ∀ (s : WholeProgramState) (cg : CallGraph) (insn : IRInstruction),
      s.call_graph = some cg →
      s.get_return_value_from_cg insn = cg.return_value_at insn := by
    intro s cg insn hcg
    unfold WholeProgramState.get_return_value_from_cg
    rw [hcg]
  have hdyn : ∀ (s : WholeProgramState) (cg : CallGraph) (m : DexMethod),
      s.call_graph = some cg → s.method_is_dynamic m = cg.dynamic m := by
    intro s cg m hcg
    unfold WholeProgramState.method_is_dynamic
    rw [hcg]
  refine ⟨?_, ?_, ?_, ?_, ?_, ?_, ?_, ?_, ?_, ?_⟩
  · intro R insn env
    rfl
  · intro R s insn env hcg hd hs hv
    simp [analyze_invoke, WholeProgramState.has_call_graph, hcg, hd, hs, hv]
  · intro R s insn env hcg hk hres
    have hcond : ¬(insn.op ≠ IROpcode.invokeDirect ∧
        insn.op ≠ IROpcode.invokeStatic ∧ insn.op ≠ IROpcode.invokeVirtual) := by
      rcases hk with h | h | h <;> simp [h]
    simp [analyze_invoke, WholeProgramState.has_call_graph, hcg, hcond, hres]
  · intro R s insn env m hcg hk hres htop
    have hcond : ¬(insn.op ≠ IROpcode.invokeDirect ∧
        insn.op ≠ IROpcode.invokeStatic ∧ insn.op ≠ IROpcode.invokeVirtual) := by
      rcases hk with h | h | h <;> simp [h]
    simp [analyze_invoke, WholeProgramState.has_call_graph, hcg, hcond, hres, htop]
  · intro R s insn env m hcg hk hres htop
    have hcond : ¬(insn.op ≠ IROpcode.invokeDirect ∧
        insn.op ≠ IROpcode.invokeStatic ∧ insn.op ≠ IROpcode.invokeVirtual) := by
      rcases hk with h | h | h <;> simp [h]
    simp [analyze_invoke, WholeProgramState.has_call_graph, hcg, hcond, hres, htop]
  · intro R s cg insn env hcg hres hfall
    by_cases hv : opcode_to_search insn.op = MethodSearch.Virtual
    · rw [hv] at hres
      simp [analyze_invoke, WholeProgramState.has_call_graph, hcg, hv, hres,
        hfall hv]
    · simp [analyze_invoke, WholeProgramState.has_call_graph, hcg, hres, hv]
  · intro R s cg insn env m hcg hres hd
    rcases hres with hres | ⟨hres0, hresv, hresf⟩
    · simp [analyze_invoke, WholeProgramState.has_call_graph, hcg, hres,
        hdyn s cg m hcg, hd]
    · rw [hresv] at hres0
      simp [analyze_invoke, WholeProgramState.has_call_graph, hcg, hres0, hresv,
        hresf, hdyn s cg m hcg, hd]
  · intro R s cg insn env m hcg hres hd htop
    rcases hres with hres | ⟨hres0, hresv, hresf⟩
    · simp [analyze_invoke, WholeProgramState.has_call_graph, hcg, hres,
        hdyn s cg m hcg, hd, hcgval s cg insn hcg, htop]
    · rw [hresv] at hres0
      simp [analyze_invoke, WholeProgramState.has_call_graph, hcg, hres0, hresv,
        hresf, hdyn s cg m hcg, hd, hcgval s cg insn hcg, htop]
  · intro R s cg insn env m hcg hres hd htop
    rcases hres with hres | ⟨hres0, hresv, hresf⟩
    · simp [analyze_invoke, WholeProgramState.has_call_graph, hcg, hres,
        hdyn s cg m hcg, hd, hcgval s cg insn hcg, htop]
    · rw [hresv] at hres0
      simp [analyze_invoke, WholeProgramState.has_call_graph, hcg, hres0, hresv,
        hresf, hdyn s cg m hcg, hd, hcgval s cg insn hcg, htop]
  · intro R wps insn env
    cases wps with
    | none => intro _; rfl
    | some s =>
        simp only [analyze_invoke]
        by_cases hcg : s.has_call_graph = true
        · rw [if_pos hcg]
          by_cases hc : (R.method insn.methodRef (opcode_to_search insn.op) = none ∧
              opcode_to_search insn.op = MethodSearch.Virtual)
          · rw [if_pos hc]
            cases R.method insn.methodRef MethodSearch.InterfaceVirtual with
            | none => intro _; rfl
            | some m =>
                dsimp only
                split_ifs with h1 h2
                · intro _; rfl
                · intro _; rfl
                · intro hfalse
                  simp at hfalse
          · rw [if_neg hc]
            cases R.method insn.methodRef (opcode_to_search insn.op) with
            | none => intro _; rfl
            | some m =>
                dsimp only
                split_ifs with h1 h2
                · intro _; rfl
                · intro _; rfl
                · intro hfalse
                  simp at hfalse
        · rw [if_neg hcg]
          by_cases hk : (insn.op ≠ IROpcode.invokeDirect ∧
              insn.op ≠ IROpcode.invokeStatic ∧ insn.op ≠ IROpcode.invokeVirtual)
          · rw [if_pos hk]
            intro _; rfl
          · rw [if_neg hk]
            cases R.method insn.methodRef (opcode_to_search insn.op) with
            | none => intro _; rfl
            | some m =>
                dsimp only
                split_ifs with h2
                · intro _; rfl
                · intro hfalse
                  simp at hfalse

/-- C7 witness: in the no-call-graph fixture state, an invoke-static
resolving to `M0` (summary 42) binds the result register. -/
theorem C7_witness :
    wps0.call_graph = none ∧
      R0.method insn_invoke.methodRef (opcode_to_search insn_invoke.op) = some M0 ∧
      (wps0.get_return_value M0).is_top = false ∧
      analyze_invoke R0 (some wps0) insn_invoke env7 =
        (true, upd env7 RESULT_REGISTER (wps0.get_return_value M0)) :=
  ⟨rfl, rfl, by decide,
    C7_analyze_invoke.2.2.2.2.1 R0 wps0 insn_invoke env7 M0 rfl
      (Or.inr (Or.inl rfl)) rfl (by decide)⟩

/-- Known-set component of the single-constructor instance-finals fold. -/
theorem cif_fold_fst (bl : List Nat) (elig : List DexField) (l : List DexField)
    (st : List DexField × FieldEnvironment) (g : DexField) :
    g ∈ (l.foldl (fun st field =>
        if field ∈ elig ∧ field.cls ∉ bl then (insertElem field st.1, st.2)
        else (st.1, upd st.2 field ConstantValue.top)) st).1 ↔
      g ∈ st.1 ∨ (g ∈ l ∧ g ∈ elig ∧ g.cls ∉ bl) := by
  induction l generalizing st with
  | nil => simp
  | cons f rest ih =>
      simp only [List.foldl_cons, ih, List.mem_cons]
      by_cases hf : f ∈ elig ∧ f.cls ∉ bl
      · rw [if_pos hf]
        dsimp only
        simp only [mem_insertElem]
        constructor
        · rintro ((rfl | h) | ⟨hm, hA⟩)
          · exact Or.inr ⟨Or.inl rfl, hf⟩
          · exact Or.inl h
          · exact Or.inr ⟨Or.inr hm, hA⟩
        · rintro (h | ⟨(rfl | hm), hA⟩)
          · exact Or.inl (Or.inr h)
          · exact Or.inl (Or.inl rfl)
          · exact Or.inr ⟨hm, hA⟩
      · rw [if_neg hf]
        dsimp only
        constructor
        · rintro (h | ⟨hm, hA⟩)
          · exact Or.inl h
          · exact Or.inr ⟨Or.inr hm, hA⟩
        · rintro (h | ⟨(rfl | hm), hA⟩)
          · exact Or.inl h
          · exact absurd hA hf
          · exact Or.inr ⟨hm, hA⟩

/-- Environment component of the single-constructor instance-finals fold. -/
theorem cif_fold_snd (bl : List Nat) (elig : List DexField) (l : List DexField)
    (st : List DexField × FieldEnvironment) (f : DexField) :
    (l.foldl (fun st field =>
        if field ∈ elig ∧ field.cls ∉ bl then (insertElem field st.1, st.2)
        else (st.1, upd st.2 field ConstantValue.top)) st).2 f =
      if f ∈ l ∧ ¬(f ∈ elig ∧ f.cls ∉ bl) then ConstantValue.top else st.2 f := by
  induction l generalizing st with
  | nil => simp
  | cons g rest ih =>
      simp only [List.foldl_cons, ih, List.mem_cons]
      by_cases hg : g ∈ elig ∧ g.cls ∉ bl
      · rw [if_pos hg]
        dsimp only
        by_cases hf : f ∈ rest ∧ ¬(f ∈ elig ∧ f.cls ∉ bl)
        · rw [if_pos hf, if_pos ⟨Or.inr hf.1, hf.2⟩]
        · rw [if_neg hf, if_neg]
          rintro ⟨hmem, hA⟩
          rcases hmem with rfl | hmem
          · exact hA hg
          · exact hf ⟨hmem, hA⟩
      · rw [if_neg hg]
        dsimp only
        by_cases hf : f ∈ rest ∧ ¬(f ∈ elig ∧ f.cls ∉ bl)
        · rw [if_pos hf, if_pos ⟨Or.inr hf.1, hf.2⟩]
        · rw [if_neg hf]
          by_cases hfg : f = g
          · subst hfg
            rw [if_pos ⟨Or.inl rfl, hg⟩, upd, if_pos rfl]
          · rw [upd, if_neg hfg, if_neg]
            rintro ⟨hmem, hA⟩
            rcases hmem with rfl | hmem
            · exact hfg rfl
            · exact hf ⟨hmem, hA⟩

/-- C10: for a non-external class, more than one constructor forces every
instance field to Top and adds nothing to the known set; with at most one
constructor an instance field becomes known exactly when it is eligible and
not blocklisted, and every other instance field is bound to Top. -/
theorem C10_instance_finals :
    (∀ (bl : List Nat) (cls : DexClass) (elig : List DexField)
        (fenv : FieldEnvironment) (known : List DexField) (part : FieldPartition),
        cls.isExternal = false → cls.ctors.length > 1 →
        (collect_instance_finals bl cls elig fenv known part).1 = known ∧
        (∀ f ∈ cls.ifields,
          (collect_instance_finals bl cls elig fenv known part).2 f =
            ConstantValue.top))
    ∧
    (∀ (bl : List Nat) (cls : DexClass) (elig : List DexField)
        (fenv : FieldEnvironment) (known : List DexField) (part : FieldPartition)
        (f : DexField),
        cls.isExternal = false → ¬(cls.ctors.length > 1) → f ∈ cls.ifields →
        (f ∈ (collect_instance_finals bl cls elig fenv known part).1 ↔
          f ∈ known ∨ (f ∈ elig ∧ f.cls ∉ bl)))
    ∧
    (∀ (bl : List Nat) (cls : DexClass) (elig : List DexField)
        (fenv : FieldEnvironment) (known : List DexField) (part : FieldPartition)
        (f : DexField),
        cls.isExternal = false → ¬(cls.ctors.length > 1) → f ∈ cls.ifields →
        ¬(f ∈ elig ∧ f.cls ∉ bl) →
        (collect_instance_finals bl cls elig fenv known part).2 f =
          ConstantValue.top) := by
  refine ⟨?_, ?_, ?_⟩
  · intro bl cls elig fenv known part _ hctors
    unfold collect_instance_finals
    rw [if_pos hctors]
    refine ⟨rfl, ?_⟩
    intro f hmem
    unfold set_fields_in_partition fields_of
    dsimp only
    rw [foldl_upd_apply, if_pos hmem, foldl_upd_apply, if_pos hmem]
  · intro bl cls elig fenv known part f _ hctors hmem
    unfold collect_instance_finals
    rw [if_neg hctors]
    dsimp only
    rw [cif_fold_fst]
    constructor
    · rintro (h | ⟨_, hA⟩)
      · exact Or.inl h
      · exact Or.inr hA
    · rintro (h | hA)
      · exact Or.inl h
      · exact Or.inr ⟨hmem, hA⟩
  · intro bl cls elig fenv known part f _ hctors hmem hnotA
    unfold collect_instance_finals
    rw [if_neg hctors]
    unfold set_fields_in_partition fields_of
    dsimp only
    rw [foldl_upd_apply, if_pos hmem, cif_fold_snd, if_pos ⟨hmem, hnotA⟩]

/-- C10 witness: in single-constructor class 6 with `F1` eligible, `F1`
becomes known and the ineligible `F2` is bound to Top. -/
theorem C10_witness :
    cls6.isExternal = false ∧ ¬(cls6.ctors.length > 1) ∧ F1 ∈ cls6.ifields ∧
      (F1 ∈ (collect_instance_finals [] cls6 [F1] fenv3 [] (fun _ =>
        ConstantValue.bot)).1 ↔ F1 ∈ ([] : List DexField) ∨
          (F1 ∈ [F1] ∧ F1.cls ∉ ([] : List Nat))) :=
  ⟨rfl, by decide, by simp [cls6],
    C10_instance_finals.2.1 [] cls6 [F1] fenv3 [] (fun _ => ConstantValue.bot) F1
      rfl (by decide) (by simp [cls6])⟩

end Claims

end Redex
